import Mathlib

/-!
Verification of the auto-email server's composition logic.

The JavaScript server (two variants: a nodemailer/SMTP variant and a Gmail
raw-message API variant) is shallowly embedded here.  JavaScript strings are
modelled as `List Char`, file bytes as `List Nat`, the attachment store and
the multer upload area as association lists from names/paths to byte lists,
and the template files as `Option (List Char)` (`none` = the backing file
does not exist).  Fallible request handlers return `Except` values; an
`Except.error` models an exception that escapes the handler's `try` block.
-/

set_option maxHeartbeats 1600000

abbrev JsStr := List Char

/-- The whitespace class trimmed by JavaScript's `String.prototype.trim`
(restricted to the code points that can occur in this system's inputs). -/
def isJsSpace (c : Char) : Bool :=
  c = ' ' || c = '\t' || c = '\n' || c = '\r' ||
  c = Char.ofNat 11 || c = Char.ofNat 12 || c = Char.ofNat 160

/-- JavaScript `s.trim()`: drop leading and trailing whitespace. -/
def jsTrim (s : JsStr) : JsStr :=
  ((s.dropWhile isJsSpace).reverse.dropWhile isJsSpace).reverse

/-- Fuelled worker for `splitJS`; the fuel only has to dominate the length
of the string being split. -/
def splitJSAux (sep : JsStr) : Nat → JsStr → List JsStr
  | _, [] => [[]]
  | 0, s => [s]
  | fuel+1, c :: cs =>
    if sep.isPrefixOf (c :: cs) && !sep.isEmpty then
      [] :: splitJSAux sep fuel (cs.drop (sep.length - 1))
    else
      (splitJSAux sep fuel cs).modifyHead (c :: ·)

/-- JavaScript `s.split(sep)` for a non-empty separator string: scan left to
right, cutting at each (non-overlapping) occurrence of `sep`. -/
def splitJS (sep s : JsStr) : List JsStr := splitJSAux sep s.length s

theorem splitJSAux_fuel (sep : JsStr) :
    ∀ (f g : Nat) (s : JsStr), s.length ≤ f → s.length ≤ g →
      splitJSAux sep f s = splitJSAux sep g s := by
  intro f
  induction f with
  | zero =>
    intro g s hf _
    have hs : s = [] := List.length_eq_zero.mp (Nat.le_zero.mp hf)
    subst hs
    cases g <;> simp [splitJSAux]
  | succ f ih =>
    intro g s hf hg
    cases s with
    | nil => cases g <;> simp [splitJSAux]
    | cons c cs =>
      cases g with
      | zero => exact absurd hg (by simp)
      | succ g =>
        simp only [splitJSAux]
        have hcs : cs.length ≤ f := by simpa using hf
        have hcs' : cs.length ≤ g := by simpa using hg
        by_cases h : (sep.isPrefixOf (c :: cs) && !sep.isEmpty) = true
        · rw [if_pos h, if_pos h]
          have hd : (cs.drop (sep.length - 1)).length ≤ f := by
            rw [List.length_drop]; omega
          have hd' : (cs.drop (sep.length - 1)).length ≤ g := by
            rw [List.length_drop]; omega
          rw [ih g _ hd hd']
        · rw [if_neg h, if_neg h, ih g cs hcs hcs']

theorem splitJS_nil (sep : JsStr) : splitJS sep [] = [[]] := rfl

theorem splitJS_cons_of_pos (sep : JsStr) (c : Char) (cs : JsStr)
    (hsep : sep ≠ []) (h : sep.isPrefixOf (c :: cs) = true) :
    splitJS sep (c :: cs) = [] :: splitJS sep (cs.drop (sep.length - 1)) := by
  have hcond : (sep.isPrefixOf (c :: cs) && !sep.isEmpty) = true := by
    simp [h, List.isEmpty_iff, hsep]
  show splitJSAux sep (cs.length + 1) (c :: cs) = _
  rw [splitJSAux, if_pos hcond]
  exact congrArg ([] :: ·)
    (splitJSAux_fuel sep cs.length _ _
      (by rw [List.length_drop]; omega) le_rfl)

theorem splitJS_cons_of_neg (sep : JsStr) (c : Char) (cs : JsStr)
    (h : sep.isPrefixOf (c :: cs) = false) :
    splitJS sep (c :: cs) = (splitJS sep cs).modifyHead (c :: ·) := by
  have hcond : (sep.isPrefixOf (c :: cs) && !sep.isEmpty) = false := by
    simp [h]
  show splitJSAux sep (cs.length + 1) (c :: cs) = _
  rw [splitJSAux, if_neg (by simp [hcond])]
  exact congrArg (List.modifyHead (c :: ·))
    (splitJSAux_fuel sep cs.length _ _ le_rfl le_rfl)

theorem splitJS_sep_append (sep r : JsStr) (hsep : sep ≠ []) :
    splitJS sep (sep ++ r) = [] :: splitJS sep r := by
  cases sep with
  | nil => exact absurd rfl hsep
  | cons a sep' =>
    have hpre : (a :: sep').isPrefixOf ((a :: sep') ++ r) = true := by
      rw [List.isPrefixOf_iff_prefix]
      exact List.prefix_append _ _
    rw [show (a :: sep') ++ r = a :: (sep' ++ r) from rfl] at hpre ⊢
    rw [splitJS_cons_of_pos _ _ _ hsep hpre]
    simp

theorem splitJSAux_ne_nil (sep : JsStr) :
    ∀ (f : Nat) (s : JsStr), splitJSAux sep f s ≠ [] := by
  intro f
  induction f with
  | zero => intro s; cases s <;> simp [splitJSAux]
  | succ f ih =>
    intro s
    cases s with
    | nil => simp [splitJSAux]
    | cons c cs =>
      rw [splitJSAux]
      by_cases h : (sep.isPrefixOf (c :: cs) && !sep.isEmpty) = true
      · rw [if_pos h]; simp
      · rw [if_neg h]
        intro hc
        have hlen := congrArg List.length hc
        simp only [List.length_modifyHead, List.length_nil] at hlen
        exact ih cs (List.length_eq_zero.mp hlen)

theorem splitJS_ne_nil (sep s : JsStr) : splitJS sep s ≠ [] :=
  splitJSAux_ne_nil sep s.length s

theorem infix_of_prefix_drop {sep p : JsStr} {i : Nat} (h : sep <+: p.drop i) :
    sep <:+: p := by
  obtain ⟨t, ht⟩ := h
  exact ⟨p.take i, t, by rw [List.append_assoc, ht, List.take_append_drop]⟩

/-- If no occurrence of `sep` begins inside `p`, splitting `p ++ z` steps
over `p`, gluing it onto the first segment of the split of `z`. -/
theorem splitJS_append_of_no_occ (sep : JsStr) :
    ∀ (p z : JsStr),
      (∀ i, i < p.length → sep.isPrefixOf ((p ++ z).drop i) = false) →
      splitJS sep (p ++ z) = (splitJS sep z).modifyHead (p ++ ·) := by
  intro p
  induction p with
  | nil =>
    intro z _
    cases hz : splitJS sep z <;> simp [hz]
  | cons c p ih =>
    intro z h
    have h0 : sep.isPrefixOf (c :: (p ++ z)) = false := by
      have := h 0 (by simp)
      simpa using this
    rw [show (c :: p) ++ z = c :: (p ++ z) from rfl,
      splitJS_cons_of_neg sep _ _ h0,
      ih z (by
        intro i hi
        have := h (i + 1) (by simp; omega)
        simpa using this)]
    cases hz : splitJS sep z with
    | nil => simp
    | cons a l => simp

/-- No occurrence of `sep` can begin inside a `sep`-free block that the
string ends with. -/
theorem no_occ_of_sep_free {sep p : JsStr} (hfree : ¬ sep <:+: p) :
    ∀ i, i < p.length → sep.isPrefixOf ((p ++ ([] : JsStr)).drop i) = false := by
  intro i _
  rw [List.append_nil]
  by_contra hcon
  have hpre : sep <+: p.drop i := by
    have := eq_true_of_ne_false hcon
    exact List.isPrefixOf_iff_prefix.mp this
  exact hfree (infix_of_prefix_drop hpre)

/-- No occurrence of `sep` can begin inside a `sep`-free block that ends in a
newline and is immediately followed by `sep`, provided `sep` itself contains
no newline. -/
theorem no_occ_of_block {sep q z : JsStr} (hnl : '\n' ∉ sep)
    (hfree : ¬ sep <:+: (q ++ ['\n'])) :
    ∀ i, i < (q ++ ['\n']).length →
      sep.isPrefixOf (((q ++ ['\n']) ++ (sep ++ z)).drop i) = false := by
  intro i hi
  by_contra hcon
  have hpre : sep <+: ((q ++ ['\n']) ++ (sep ++ z)).drop i :=
    List.isPrefixOf_iff_prefix.mp (eq_true_of_ne_false hcon)
  have hdrop : ((q ++ ['\n']) ++ (sep ++ z)).drop i
      = (q ++ ['\n']).drop i ++ (sep ++ z) := by
    rw [List.drop_append_eq_append_drop]
    have : i - (q ++ ['\n']).length = 0 := by omega
    rw [this, List.drop_zero]
  rw [hdrop] at hpre
  set a := (q ++ ['\n']).drop i with ha
  have halen : a.length = (q ++ ['\n']).length - i := by
    rw [ha, List.length_drop]
  rcases Nat.le_total sep.length a.length with hle | hle
  · have h1 : sep <+: a :=
      List.prefix_of_prefix_length_le hpre (List.prefix_append a (sep ++ z)) hle
    exact hfree (infix_of_prefix_drop h1)
  · have h1 : a <+: sep :=
      List.prefix_of_prefix_length_le (List.prefix_append a (sep ++ z)) hpre hle
    have h2 : '\n' ∈ a := by
      have hiq : i ≤ q.length := by
        simp only [List.length_append, List.length_cons, List.length_nil] at hi
        omega
      rw [ha, List.drop_append_eq_append_drop]
      have : i - q.length = 0 := by omega
      rw [this, List.drop_zero]
      simp
    exact hnl (h1.subset h2)

theorem dropWhile_idem (p : Char → Bool) (l : JsStr) :
    (l.dropWhile p).dropWhile p = l.dropWhile p := by
  induction l with
  | nil => simp
  | cons a l ih =>
    by_cases h : p a = true
    · simp [List.dropWhile_cons, h, ih]
    · simp [List.dropWhile_cons, h]

theorem dropWhile_eq_self_of_prefix (p : Char → Bool) {x y : JsStr}
    (hx : x.dropWhile p = x) (hy : y <+: x) : y.dropWhile p = y := by
  cases y with
  | nil => simp
  | cons a y' =>
    obtain ⟨t, ht⟩ := hy
    have hpa : p a = false := by
      by_contra hcon
      have hpa' : p a = true := eq_true_of_ne_false hcon
      cases x with
      | nil => simp at ht
      | cons b x' =>
        have hab : a = b := by
          have := congrArg (List.headD · 'x') ht
          simpa using this
        subst hab
        rw [List.dropWhile_cons, if_pos hpa'] at hx
        have hlen : (x'.dropWhile p).length ≤ x'.length :=
          (List.dropWhile_suffix p).length_le
        have := congrArg List.length hx
        simp at this
        omega
    rw [List.dropWhile_cons, if_neg (by simp [hpa])]

def trimL (s : JsStr) : JsStr := s.dropWhile isJsSpace

def trimR (s : JsStr) : JsStr := (s.reverse.dropWhile isJsSpace).reverse

theorem jsTrim_eq_trimR_trimL (s : JsStr) : jsTrim s = trimR (trimL s) := rfl

theorem trimL_trimL (s : JsStr) : trimL (trimL s) = trimL s :=
  dropWhile_idem isJsSpace s

theorem trimR_trimR (s : JsStr) : trimR (trimR s) = trimR s := by
  unfold trimR
  rw [List.reverse_reverse, dropWhile_idem]

theorem trimR_isPre (s : JsStr) : trimR s <+: s := by
  have h1 : s.reverse.dropWhile isJsSpace <:+ s.reverse :=
    List.dropWhile_suffix isJsSpace
  have h2 := h1.reverse
  rwa [List.reverse_reverse] at h2

theorem trimL_of_trimR_of_trimL (s : JsStr) (h : trimL s = s) :
    trimL (trimR s) = trimR s :=
  dropWhile_eq_self_of_prefix isJsSpace h (trimR_isPre s)

theorem jsTrim_idem (s : JsStr) : jsTrim (jsTrim s) = jsTrim s := by
  rw [jsTrim_eq_trimR_trimL, jsTrim_eq_trimR_trimL,
    trimL_of_trimR_of_trimL (trimL s) (trimL_trimL s), trimR_trimR]

theorem isInfix_of_isPre_isSuf {a b c : JsStr} (h1 : a <+: b) (h2 : b <:+ c) :
    a <:+: c := by
  obtain ⟨t, ht⟩ := h1
  obtain ⟨u, hu⟩ := h2
  exact ⟨u, t, by rw [List.append_assoc, ht, hu]⟩

theorem jsTrim_isInfix (s : JsStr) : jsTrim s <:+: s := by
  rw [jsTrim_eq_trimR_trimL]
  exact isInfix_of_isPre_isSuf (trimR_isPre (trimL s))
    (List.dropWhile_suffix isJsSpace)

theorem jsTrim_ws_cons (c : Char) (s : JsStr) (h : isJsSpace c = true) :
    jsTrim (c :: s) = jsTrim s := by
  simp [jsTrim, List.dropWhile_cons, h]

theorem jsTrim_nl_cons (s : JsStr) : jsTrim ('\n' :: s) = jsTrim s :=
  jsTrim_ws_cons '\n' s (by decide)

theorem jsTrim_append_ws (s : JsStr) (c : Char) (h : isJsSpace c = true) :
    jsTrim (s ++ [c]) = jsTrim s := by
  unfold jsTrim
  rw [List.dropWhile_append]
  by_cases he : (s.dropWhile isJsSpace).isEmpty = true
  · rw [if_pos he]
    have : s.dropWhile isJsSpace = [] := by simpa using he
    simp [this, List.dropWhile_cons, h]
  · rw [if_neg he]
    simp only [List.reverse_append, List.reverse_cons, List.reverse_nil,
      List.nil_append, List.singleton_append, List.dropWhile_cons, h,
      if_true]

theorem jsTrim_append_nl (s : JsStr) : jsTrim (s ++ ['\n']) = jsTrim s :=
  jsTrim_append_ws s '\n' (by decide)

/-! ## Template Store (embedded from the `/templates/...` route handlers)

A template file is `Option JsStr`: `none` models a backing file that does not
exist on disk (`fs.existsSync` false), `some content` an existing file. -/

/-- The fixed delimiter token written around each stored message entry. -/
def MESSAGE_DELIM : JsStr := "---MESSAGE---".toList

/-- GET `/templates/messages`: split the file on the delimiter, keep the
segments with non-blank trim, and return each segment trimmed. -/
def listMessages : Option JsStr → List JsStr
  | none => []
  | some content =>
    ((splitJS MESSAGE_DELIM content).filter
      (fun m => !(jsTrim m).isEmpty)).map jsTrim

/-- POST `/templates/messages/add`: unconditionally append
`(content ? '\n' : '') + '---MESSAGE---\n' + message.trim()`. -/
def addMessage (file : Option JsStr) (message : JsStr) : Option JsStr :=
  let content := file.getD []
  some (content ++ (if content.isEmpty then [] else ['\n'])
    ++ MESSAGE_DELIM ++ ('\n' :: jsTrim message))

/-- GET `/templates/subjects`: split on newlines, keep non-blank lines
(the lines themselves are returned untrimmed). -/
def listSubjects : Option JsStr → List JsStr
  | none => []
  | some content =>
    (splitJS ['\n'] content).filter (fun line => !(jsTrim line).isEmpty)

/-- POST `/templates/subjects/add`: append the trimmed subject unless some
existing non-blank line equals it exactly. -/
def addSubject (file : Option JsStr) (subject : JsStr) : Option JsStr :=
  let content := file.getD []
  let subjects :=
    (splitJS ['\n'] content).filter (fun line => !(jsTrim line).isEmpty)
  if subjects.contains (jsTrim subject) then file
  else
    some (content ++ (if content.isEmpty then [] else ['\n']) ++ jsTrim subject)

/-- POST `/templates/subjects/delete`: if the file exists, keep the lines that
are non-blank and whose trim differs from the trimmed subject, and rewrite
them joined by newlines; a missing file is left untouched. -/
def deleteSubject (file : Option JsStr) (subject : JsStr) : Option JsStr :=
  match file with
  | none => none
  | some content =>
    some (List.intercalate ['\n']
      ((splitJS ['\n'] content).filter
        (fun line => !(jsTrim line).isEmpty && (jsTrim line != jsTrim subject))))

theorem MESSAGE_DELIM_ne_nil : MESSAGE_DELIM ≠ [] := by decide

theorem nl_not_mem_MESSAGE_DELIM : '\n' ∉ MESSAGE_DELIM := by decide

theorem exists_prefix_drop_of_occ {sep l : JsStr} (h : sep <:+: l) :
    ∃ i, sep <+: l.drop i := by
  obtain ⟨pre, post, hl⟩ := h
  refine ⟨pre.length, ?_⟩
  rw [← hl, List.append_assoc, List.drop_left]
  exact List.prefix_append sep post

theorem infix_of_infix_cons {sep l : JsStr} {a : Char} (hsep : sep ≠ [])
    (ha : a ∉ sep) (h : sep <:+: (a :: l)) : sep <:+: l := by
  obtain ⟨i, hi⟩ := exists_prefix_drop_of_occ h
  cases i with
  | zero =>
    exfalso
    cases sep with
    | nil => exact hsep rfl
    | cons b sep' =>
      obtain ⟨t, ht⟩ := hi
      have hab : b = a := by
        have := congrArg (List.headD · 'x') ht
        simpa using this
      exact ha (hab ▸ List.mem_cons_self b sep')
  | succ i =>
    rw [List.drop_succ_cons] at hi
    exact infix_of_prefix_drop hi

theorem infix_of_infix_concat {sep l : JsStr} {a : Char} (hsep : sep ≠ [])
    (ha : a ∉ sep) (h : sep <:+: (l ++ [a])) : sep <:+: l := by
  have h1 : sep.reverse <:+: (a :: l.reverse) := by
    rw [show a :: l.reverse = (l ++ [a]).reverse by simp]
    exact List.reverse_infix.mpr h
  have h2 : sep.reverse <:+: l.reverse :=
    infix_of_infix_cons (by simpa using hsep) (by simpa using ha) h1
  have h3 := List.reverse_infix.mpr h2
  simpa using h3

/-- Delimiter-freedom of an entry extends to the newline-padded segment
around it. -/
theorem delim_free_pad {t : JsStr} (h : ¬ MESSAGE_DELIM <:+: t) :
    ¬ MESSAGE_DELIM <:+: ('\n' :: (t ++ ['\n'])) := by
  intro hcon
  exact h (infix_of_infix_concat MESSAGE_DELIM_ne_nil nl_not_mem_MESSAGE_DELIM
    (infix_of_infix_cons MESSAGE_DELIM_ne_nil nl_not_mem_MESSAGE_DELIM hcon))

theorem delim_free_cons {t : JsStr} (h : ¬ MESSAGE_DELIM <:+: t) :
    ¬ MESSAGE_DELIM <:+: ('\n' :: t) := by
  intro hcon
  exact h (infix_of_infix_cons MESSAGE_DELIM_ne_nil nl_not_mem_MESSAGE_DELIM
    hcon)

/-- The text `addMessage` appends for one entry after existing content. -/
def encBlock (t : JsStr) : JsStr := '\n' :: (MESSAGE_DELIM ++ ('\n' :: t))

/-- The file content produced by adding (the already-trimmed) entries `ts`
in order, starting from a missing file. -/
def encodeMessages : List JsStr → JsStr
  | [] => []
  | t :: ts => MESSAGE_DELIM ++ ('\n' :: t) ++ ts.flatMap encBlock

/-- The segments produced by splitting `encodeMessages ts` on the delimiter
(omitting the leading empty segment). -/
def segsOf : List JsStr → List JsStr
  | [] => []
  | [t] => ['\n' :: t]
  | t :: t2 :: ts => ('\n' :: (t ++ ['\n'])) :: segsOf (t2 :: ts)

theorem encodeMessages_ne_nil {ts : List JsStr} (h : ts ≠ []) :
    encodeMessages ts ≠ [] := by
  cases ts with
  | nil => exact absurd rfl h
  | cons t ts =>
    simp only [encodeMessages]
    intro hc
    have := congrArg List.length hc
    simp [MESSAGE_DELIM] at this

theorem encodeMessages_concat {ts : List JsStr} (t : JsStr) (h : ts ≠ []) :
    encodeMessages (ts ++ [t]) = encodeMessages ts ++ encBlock t := by
  cases ts with
  | nil => exact absurd rfl h
  | cons u us =>
    simp only [List.cons_append, encodeMessages, List.flatMap_append,
      List.flatMap_cons, List.flatMap_nil, List.append_nil, List.append_assoc]

theorem addMessage_encode {ts : List JsStr} (m : JsStr) (h : ts ≠ []) :
    addMessage (some (encodeMessages ts)) m
      = some (encodeMessages (ts ++ [jsTrim m])) := by
  unfold addMessage
  rw [encodeMessages_concat (jsTrim m) h]
  have hne : (encodeMessages ts).isEmpty = false := by
    simp [List.isEmpty_iff, encodeMessages_ne_nil h]
  simp only [Option.getD_some, hne, Bool.false_eq_true, if_neg,
    ite_false, encBlock]
  simp [List.append_assoc]

theorem foldl_addMessage_encode (msgs : List JsStr) :
    ∀ (ts : List JsStr), ts ≠ [] →
      msgs.foldl addMessage (some (encodeMessages ts))
        = some (encodeMessages (ts ++ msgs.map jsTrim)) := by
  induction msgs with
  | nil => intro ts _; simp
  | cons m ms ih =>
    intro ts hts
    rw [List.foldl_cons, addMessage_encode m hts,
      ih (ts ++ [jsTrim m]) (by simp)]
    simp

theorem foldl_addMessage_none (msgs : List JsStr) (h : msgs ≠ []) :
    msgs.foldl addMessage none = some (encodeMessages (msgs.map jsTrim)) := by
  cases msgs with
  | nil => exact absurd rfl h
  | cons m ms =>
    rw [List.foldl_cons]
    have h1 : addMessage none m = some (encodeMessages [jsTrim m]) := by
      simp [addMessage, encodeMessages]
    rw [h1, foldl_addMessage_encode ms [jsTrim m] (by simp)]
    simp

theorem splitJS_encRest :
    ∀ (ts : List JsStr), ts ≠ [] → (∀ t ∈ ts, ¬ MESSAGE_DELIM <:+: t) →
      splitJS MESSAGE_DELIM
          (('\n' :: ts.headD []) ++ (ts.tailD []).flatMap encBlock)
        = segsOf ts := by
  intro ts
  induction ts with
  | nil => intro h _; exact absurd rfl h
  | cons t ts ih =>
    intro _ hfree
    cases ts with
    | nil =>
      simp only [List.headD_cons, List.tailD_cons, List.flatMap_nil]
      rw [splitJS_append_of_no_occ MESSAGE_DELIM ('\n' :: t) []
        (no_occ_of_sep_free (delim_free_cons (hfree t (by simp))))]
      simp [splitJS_nil, segsOf]
    | cons t2 ts2 =>
      have hregroup : ('\n' :: t) ++ (t2 :: ts2).flatMap encBlock
          = ((('\n' :: t) ++ ['\n'])
            ++ (MESSAGE_DELIM
              ++ (('\n' :: t2) ++ ts2.flatMap encBlock))) := by
        simp [encBlock, List.append_assoc]
      simp only [List.headD_cons, List.tailD_cons]
      rw [hregroup,
        splitJS_append_of_no_occ MESSAGE_DELIM (('\n' :: t) ++ ['\n']) _
          (no_occ_of_block nl_not_mem_MESSAGE_DELIM
            (by
              have := delim_free_pad (hfree t (by simp))
              simpa using this)),
        splitJS_sep_append _ _ MESSAGE_DELIM_ne_nil]
      have ih2 := ih (by simp) (by
        intro u hu
        exact hfree u (by simp [hu]))
      simp only [List.headD_cons, List.tailD_cons] at ih2
      rw [ih2]
      simp [segsOf]

theorem splitJS_encodeMessages (ts : List JsStr) (h : ts ≠ [])
    (hfree : ∀ t ∈ ts, ¬ MESSAGE_DELIM <:+: t) :
    splitJS MESSAGE_DELIM (encodeMessages ts) = [] :: segsOf ts := by
  cases ts with
  | nil => exact absurd rfl h
  | cons t ts =>
    have : encodeMessages (t :: ts)
        = MESSAGE_DELIM ++ (('\n' :: t) ++ ts.flatMap encBlock) := by
      simp [encodeMessages, List.append_assoc]
    rw [this, splitJS_sep_append _ _ MESSAGE_DELIM_ne_nil]
    have := splitJS_encRest (t :: ts) (by simp) hfree
    simpa using this

theorem segsOf_filter_map :
    ∀ (ts : List JsStr),
      (((segsOf ts).filter (fun m => !(jsTrim m).isEmpty)).map jsTrim)
        = (ts.map jsTrim).filter (fun t => !t.isEmpty) := by
  intro ts
  induction ts with
  | nil => simp [segsOf]
  | cons t ts ih =>
    cases ts with
    | nil =>
      simp only [segsOf, List.filter, List.map]
      by_cases h : (jsTrim t).isEmpty = true
      · simp [jsTrim_nl_cons, h]
      · simp [jsTrim_nl_cons, h]
    | cons t2 ts2 =>
      have hseg : jsTrim ('\n' :: (t ++ ['\n'])) = jsTrim t := by
        rw [jsTrim_nl_cons, jsTrim_append_nl]
      by_cases h : (jsTrim t).isEmpty = true
      · simp [segsOf, List.filter_cons, hseg, h, ih]
      · simp [segsOf, List.filter_cons, hseg, h, ih]

theorem listMessages_encode (ts : List JsStr) (h : ts ≠ [])
    (hfree : ∀ t ∈ ts, ¬ MESSAGE_DELIM <:+: t) :
    listMessages (some (encodeMessages ts))
      = (ts.map jsTrim).filter (fun t => !t.isEmpty) := by
  show (((splitJS MESSAGE_DELIM (encodeMessages ts)).filter
    (fun m => !(jsTrim m).isEmpty)).map jsTrim) = _
  rw [splitJS_encodeMessages ts h hfree]
  have hnil : (jsTrim ([] : JsStr)).isEmpty = true := by decide
  simp only [List.filter_cons, hnil, Bool.not_true]
  exact segsOf_filter_map ts

theorem jsTrim_map_idem (msgs : List JsStr) :
    (msgs.map jsTrim).map jsTrim = msgs.map jsTrim := by
  rw [List.map_map]
  exact List.map_congr_left (fun m _ => jsTrim_idem m)

theorem listMessages_foldl (msgs : List JsStr)
    (hfree : ∀ m ∈ msgs, ¬ MESSAGE_DELIM <:+: m) :
    listMessages (msgs.foldl addMessage none)
      = (msgs.map jsTrim).filter (fun t => !t.isEmpty) := by
  cases hm : msgs with
  | nil => simp [listMessages]
  | cons m ms =>
    rw [← hm, foldl_addMessage_none msgs (by rw [hm]; simp),
      listMessages_encode (msgs.map jsTrim) (by rw [hm]; simp)
        (by
          intro t ht
          obtain ⟨u, hu, ht2⟩ := List.mem_map.mp ht
          intro hcon
          exact hfree u hu ((ht2 ▸ hcon).trans (jsTrim_isInfix u))),
      jsTrim_map_idem]

/-- C4 counterexample: adding the single message `a---MESSAGE---b` (non-empty,
already trimmed) and reading back yields `["a", "b"]`; the added entry itself
is not reconstructed, so the split/filter read-back is not an exact
round-trip of the added entries. -/
theorem C4_counterexample :
    listMessages (List.foldl addMessage none [("a---MESSAGE---b".toList)])
      = [("a".toList), ("b".toList)] ∧
    ("a---MESSAGE---b".toList)
      ∉ listMessages (List.foldl addMessage none
        [("a---MESSAGE---b".toList)]) ∧
    jsTrim ("a---MESSAGE---b".toList) = ("a---MESSAGE---b".toList) ∧
    ("a---MESSAGE---b".toList) ≠ ([] : JsStr) := by
  refine ⟨by decide, by decide, by decide, by decide⟩

/-- C4 (amended): for every sequence of added messages none of which contains
the delimiter token `---MESSAGE---` as a substring, writing each entry
wrapped with the delimiter and then reading by splitting on the delimiter
and filtering out blank segments reconstructs exactly the non-empty trimmed
entries that were added, in order. -/
theorem C4_messages_roundtrip (msgs : List JsStr)
    (hfree : ∀ m ∈ msgs, ¬ MESSAGE_DELIM <:+: m) :
    listMessages (msgs.foldl addMessage none)
      = (msgs.map jsTrim).filter (fun t => !t.isEmpty) :=
  listMessages_foldl msgs hfree

theorem C4_witness :
    listMessages (List.foldl addMessage none
        [("Hello".toList), (" World\nAgain ".toList), ("  ".toList)])
      = [("Hello".toList), ("World\nAgain".toList)] := by
  rw [C4_messages_roundtrip
    [("Hello".toList), (" World\nAgain ".toList), ("  ".toList)] (by decide)]
  decide

/-- C3 counterexample: message-template add is not deduplicating — adding the
message `Hello\nWorld` twice and then listing yields two entries, not
exactly one as the claim states. -/
theorem C3_counterexample :
    listMessages (addMessage (addMessage none ("Hello\nWorld".toList))
        ("Hello\nWorld".toList))
      = [("Hello\nWorld".toList), ("Hello\nWorld".toList)] ∧
    listMessages (addMessage (addMessage none ("Hello\nWorld".toList))
        ("Hello\nWorld".toList))
      ≠ [("Hello\nWorld".toList)] := by
  refine ⟨by decide, by decide⟩

/-- C3 (amended): message-template add appends unconditionally (it performs
no existence check), so adding the same delimiter-free, non-blank message
twice and then listing yields exactly two entries, each equal to the trimmed
message. -/
theorem C3_message_add_appends (m : JsStr)
    (hfree : ¬ MESSAGE_DELIM <:+: m) (hne : (jsTrim m).isEmpty = false) :
    listMessages (addMessage (addMessage none m) m)
      = [jsTrim m, jsTrim m] := by
  have h := listMessages_foldl [m, m] (by
    intro u hu
    simp only [List.mem_cons, List.not_mem_nil, or_false] at hu
    rcases hu with h1 | h1 <;> (subst h1; exact hfree))
  simp only [List.foldl_cons, List.foldl_nil] at h
  rw [h]
  simp [List.filter, hne]

theorem C3_witness :
    listMessages (addMessage (addMessage none ("Msg one".toList))
        ("Msg one".toList))
      = [("Msg one".toList), ("Msg one".toList)] := by
  rw [C3_message_add_appends ("Msg one".toList) (by decide) (by decide)]
  decide

/-! ## Newline split/join facts used by the subject-template store -/

theorem splitJS_single_cons_pos (c0 : Char) (xs : JsStr) :
    splitJS [c0] (c0 :: xs) = [] :: splitJS [c0] xs := by
  have h := splitJS_cons_of_pos [c0] c0 xs (by simp)
    (by simp [List.isPrefixOf])
  simpa using h

theorem splitJS_single_cons_neg (c0 x : Char) (xs : JsStr) (h : x ≠ c0) :
    splitJS [c0] (x :: xs) = (splitJS [c0] xs).modifyHead (x :: ·) :=
  splitJS_cons_of_neg [c0] x xs
    (by simp [List.isPrefixOf]; exact fun hc => absurd hc.symm h)

theorem splitJS_single_no_sep (c0 : Char) :
    ∀ (s : JsStr), ∀ l ∈ splitJS [c0] s, c0 ∉ l := by
  intro s
  induction s with
  | nil =>
    intro l hl
    rw [splitJS_nil] at hl
    simp only [List.mem_singleton] at hl
    subst hl
    simp
  | cons x xs ih =>
    intro l hl
    by_cases hx : x = c0
    · subst hx
      rw [splitJS_single_cons_pos] at hl
      rcases List.mem_cons.mp hl with h1 | h1
      · subst h1; simp
      · exact ih l h1
    · rw [splitJS_single_cons_neg c0 x xs hx] at hl
      cases hsp : splitJS [c0] xs with
      | nil => exact absurd hsp (splitJS_ne_nil _ _)
      | cons a L =>
        rw [hsp, List.modifyHead_cons] at hl
        rcases List.mem_cons.mp hl with h1 | h1
        · subst h1
          intro hmem
          rcases List.mem_cons.mp hmem with h2 | h2
          · exact hx h2.symm
          · exact ih a (by rw [hsp]; exact List.mem_cons_self a L) h2
        · exact ih l (by rw [hsp]; exact List.mem_cons_of_mem a h1)

theorem not_infix_singleton {c0 : Char} {p : JsStr} (h : c0 ∉ p) :
    ¬ [c0] <:+: p := fun hinf =>
  h (hinf.sublist.subset (List.mem_singleton_self c0))

theorem intercalate_single (sep p : JsStr) : List.intercalate sep [p] = p := by
  simp [List.intercalate]

theorem intercalate_cons₂ (sep p q : JsStr) (r : List JsStr) :
    List.intercalate sep (p :: q :: r)
      = p ++ sep ++ List.intercalate sep (q :: r) := by
  simp [List.intercalate]

theorem splitJS_single_intercalate (c0 : Char) :
    ∀ (parts : List JsStr), (∀ p ∈ parts, c0 ∉ p) → parts ≠ [] →
      splitJS [c0] (List.intercalate [c0] parts) = parts := by
  intro parts
  induction parts with
  | nil => intro _ h; exact absurd rfl h
  | cons p rest ih =>
    intro hfree _
    cases rest with
    | nil =>
      rw [intercalate_single]
      have hp := hfree p (by simp)
      rw [show p = p ++ ([] : JsStr) by simp,
        splitJS_append_of_no_occ [c0] p []
          (no_occ_of_sep_free (not_infix_singleton hp))]
      simp [splitJS_nil]
    | cons q rest2 =>
      rw [intercalate_cons₂, List.append_assoc,
        splitJS_append_of_no_occ [c0] p ([c0] ++ List.intercalate [c0] (q :: rest2))
          (by
            intro i hi
            have h1 : (p ++ ([c0] ++ List.intercalate [c0] (q :: rest2))).drop i
                = p.drop i ++ ([c0] ++ List.intercalate [c0] (q :: rest2)) := by
              rw [List.drop_append_eq_append_drop]
              have h0 : i - p.length = 0 := by omega
              rw [h0, List.drop_zero]
            rw [h1]
            have h2 : p.drop i = p.get ⟨i, hi⟩ :: p.drop (i + 1) :=
              List.drop_eq_getElem_cons hi
            rw [h2]
            have h3 : c0 ≠ p.get ⟨i, hi⟩ := by
              intro hc
              exact hfree p (by simp) (hc ▸ List.get_mem p i hi)
            simp [List.isPrefixOf]
            exact fun hc => absurd hc h3),
        splitJS_sep_append [c0] _ (by simp),
        ih (fun u hu => hfree u (List.mem_cons_of_mem p hu)) (by simp)]
      cases hsp : splitJS [c0] (List.intercalate [c0] (q :: rest2)) <;> simp

theorem listSubjects_deleteSubject (file : Option JsStr) (subject : JsStr) :
    listSubjects (deleteSubject file subject)
      = (listSubjects file).filter
          (fun line => jsTrim line != jsTrim subject) := by
  cases file with
  | none => simp [deleteSubject, listSubjects]
  | some content =>
    simp only [deleteSubject, listSubjects]
    set parts := (splitJS ['\n'] content).filter
      (fun line => !(jsTrim line).isEmpty && (jsTrim line != jsTrim subject))
      with hparts
    have hrhs : ((splitJS ['\n'] content).filter
        (fun line => !(jsTrim line).isEmpty)).filter
          (fun line => jsTrim line != jsTrim subject) = parts := by
      rw [List.filter_filter, hparts]
      apply List.filter_congr
      intro a _
      rw [Bool.and_comm]
    rw [hrhs]
    by_cases hp : parts = []
    · rw [hp]
      show (splitJS ['\n'] (List.intercalate ['\n'] [])).filter
        (fun line => !(jsTrim line).isEmpty) = []
      decide
    · have hnosep : ∀ p ∈ parts, '\n' ∉ p := fun p hp2 =>
        splitJS_single_no_sep '\n' content p (List.mem_of_mem_filter hp2)
      rw [splitJS_single_intercalate '\n' parts hnosep hp]
      rw [List.filter_eq_self]
      intro a ha
      rw [hparts] at ha
      have := (List.mem_filter.mp ha).2
      exact (Bool.and_elim_left this)

/-- POST `/templates/subjects/delete` handler: the HTTP response paired with
the new file state; absent filesystem failures the handler always responds
200 success, whether or not anything matched. -/
def subjectsDelete (file : Option JsStr) (subject : JsStr) :
    (Nat × Bool × JsStr) × Option JsStr :=
  ((200, true, "Subject deleted successfully".toList),
    deleteSubject file subject)

/-- C8: subject-template delete removes exactly the stored lines whose trim
matches the trimmed input (keeping the rest in their original relative
order), always reports 200 success, and is a no-op on the listing when
nothing matched. -/
theorem C8_subjects_delete (file : Option JsStr) (subject : JsStr) :
    listSubjects (deleteSubject file subject)
      = (listSubjects file).filter
          (fun line => jsTrim line != jsTrim subject)
    ∧ (subjectsDelete file subject).1
      = (200, true, "Subject deleted successfully".toList)
    ∧ ((∀ l ∈ listSubjects file, jsTrim l ≠ jsTrim subject) →
        listSubjects (deleteSubject file subject) = listSubjects file) := by
  refine ⟨listSubjects_deleteSubject file subject, rfl, ?_⟩
  intro hnone
  rw [listSubjects_deleteSubject file subject, List.filter_eq_self]
  intro a ha
  simpa using hnone a ha

theorem C8_witness :
    listSubjects (deleteSubject (some ("Hi\nHello".toList))
        ("Never added".toList))
      = listSubjects (some ("Hi\nHello".toList)) := by
  have h := (C8_subjects_delete (some ("Hi\nHello".toList))
    ("Never added".toList)).2.2
  exact h (by decide)

/-! ## Attachment Store, upload staging and promotion -/

/-- A file in a directory listing: its name (store) or staged path (uploads
directory), with its byte content. -/
abbrev FileEntry := JsStr × List Nat

/-- The `public/files` attachment store and the `public/uploads` staging
directory, each as an association list with unique keys. -/
structure FS where
  store : List FileEntry
  uploads : List FileEntry

/-- `fs.existsSync` + `fs.readFileSync` on a directory: the content stored
under a name, if any. -/
def storeLookup (dir : List FileEntry) (name : JsStr) : Option (List Nat) :=
  (dir.find? (fun e => e.1 == name)).map (fun e => e.2)

/-- A file staged by multer for one request: original client filename,
staged path (`Date.now() + '-' + originalname`), byte content. -/
structure StagedFile where
  originalname : JsStr
  path : JsStr
  content : List Nat

/-- `fs.unlinkSync` / the removal half of `fs.renameSync`. -/
def removeFile (dir : List FileEntry) (name : JsStr) : List FileEntry :=
  dir.filter (fun e => !(e.1 == name))

/-- Promotion of one staged upload after a successful send (server.js
108-122, part_001 236-249): if a store file with the original name already
exists, the staged file is only unlinked from the uploads directory;
otherwise it is renamed (moved) into the store under its original name. -/
def promoteOne (fs : FS) (f : StagedFile) : FS :=
  if (storeLookup fs.store f.originalname).isSome then
    ⟨fs.store, removeFile fs.uploads f.path⟩
  else
    ⟨fs.store ++ [(f.originalname, f.content)], removeFile fs.uploads f.path⟩

/-- The `req.files.forEach` promotion loop. -/
def promoteAll (fs : FS) (files : List StagedFile) : FS :=
  files.foldl promoteOne fs

theorem storeLookup_append_of_isSome {dir : List FileEntry} {n : JsStr}
    (more : List FileEntry) (h : (storeLookup dir n).isSome = true) :
    storeLookup (dir ++ more) n = storeLookup dir n := by
  unfold storeLookup at h ⊢
  rw [List.find?_append]
  cases hf : dir.find? (fun e => e.1 == n) with
  | none => rw [hf] at h; simp at h
  | some e => simp [hf]

theorem storeLookup_removeFile (dir : List FileEntry) (n : JsStr) :
    storeLookup (removeFile dir n) n = none := by
  unfold storeLookup removeFile
  rw [List.find?_eq_none.mpr]
  · rfl
  · intro e he
    have := (List.mem_filter.mp he).2
    simp at this ⊢
    exact this

theorem promoteOne_store_stable {fs : FS} {n : JsStr}
    (h : (storeLookup fs.store n).isSome = true) (f : StagedFile) :
    storeLookup (promoteOne fs f).store n = storeLookup fs.store n := by
  unfold promoteOne
  by_cases hc : (storeLookup fs.store f.originalname).isSome = true
  · rw [if_pos hc]
  · rw [if_neg hc]
    exact storeLookup_append_of_isSome _ h

theorem promoteOne_isSome_stable {fs : FS} {n : JsStr}
    (h : (storeLookup fs.store n).isSome = true) (f : StagedFile) :
    (storeLookup (promoteOne fs f).store n).isSome = true := by
  rw [promoteOne_store_stable h f]
  exact h

theorem promoteAll_store_stable (files : List StagedFile) :
    ∀ (fs : FS) (n : JsStr), (storeLookup fs.store n).isSome = true →
      storeLookup (promoteAll fs files).store n = storeLookup fs.store n := by
  induction files with
  | nil => intro fs n _; rfl
  | cons f rest ih =>
    intro fs n h
    show storeLookup (promoteAll (promoteOne fs f) rest).store n = _
    rw [ih (promoteOne fs f) n (promoteOne_isSome_stable h f),
      promoteOne_store_stable h f]

/-- C2: promoting a staged upload whose original filename already exists in
the store leaves the whole store unchanged (the existing file wins) and
unlinks the staged copy; promoting a non-colliding name moves the staged
content into the store under its original name; and across a whole
promotion pass an existing store entry is never overwritten. -/
theorem C2_promotion (fs : FS) (f : StagedFile) (files : List StagedFile) :
    ((storeLookup fs.store f.originalname).isSome = true →
      (promoteOne fs f).store = fs.store
      ∧ storeLookup (promoteOne fs f).uploads f.path = none)
    ∧ (storeLookup fs.store f.originalname = none →
      storeLookup (promoteOne fs f).store f.originalname = some f.content
      ∧ storeLookup (promoteOne fs f).uploads f.path = none)
    ∧ ((storeLookup fs.store f.originalname).isSome = true →
      storeLookup (promoteAll fs files).store f.originalname
        = storeLookup fs.store f.originalname) := by
  refine ⟨?_, ?_, ?_⟩
  · intro h
    constructor
    · unfold promoteOne
      rw [if_pos h]
    · unfold promoteOne
      rw [if_pos h]
      exact storeLookup_removeFile fs.uploads f.path
  · intro h
    have hns : (storeLookup fs.store f.originalname).isSome = false := by
      rw [h]; rfl
    constructor
    · unfold promoteOne
      rw [if_neg (by simp [hns])]
      unfold storeLookup
      show ((fs.store ++ [(f.originalname, f.content)]).find?
        (fun e => e.1 == f.originalname)).map (fun e => e.2) = _
      rw [List.find?_append]
      unfold storeLookup at h
      cases hf : fs.store.find? (fun e => e.1 == f.originalname) with
      | none =>
        have hsingle : List.find? (fun e => e.1 == f.originalname)
            [(f.originalname, f.content)] = some (f.originalname, f.content) :=
          List.find?_cons_of_pos _ (by simp)
        rw [hsingle]
        rfl
      | some e => rw [hf] at h; simp at h
    · unfold promoteOne
      rw [if_neg (by simp [hns])]
      exact storeLookup_removeFile fs.uploads f.path
  · intro h
    exact promoteAll_store_stable files fs f.originalname h

theorem C2_witness :
    (promoteOne ⟨[(("x.txt".toList), [1, 2])], [(("9-x.txt".toList), [3])]⟩
      ⟨("x.txt".toList), ("9-x.txt".toList), [3]⟩).store
      = [(("x.txt".toList), [1, 2])]
    ∧ storeLookup (promoteOne
        ⟨[(("x.txt".toList), [1, 2])], [(("9-x.txt".toList), [3])]⟩
        ⟨("x.txt".toList), ("9-x.txt".toList), [3]⟩).uploads
        ("9-x.txt".toList) = none
    ∧ storeLookup (promoteOne ⟨[], [(("7-y.txt".toList), [4])]⟩
        ⟨("y.txt".toList), ("7-y.txt".toList), [4]⟩).store
        ("y.txt".toList) = some [4] := by
  have h1 := (C2_promotion
    ⟨[(("x.txt".toList), [1, 2])], [(("9-x.txt".toList), [3])]⟩
    ⟨("x.txt".toList), ("9-x.txt".toList), [3]⟩ []).1 (by decide)
  have h2 := (C2_promotion ⟨[], [(("7-y.txt".toList), [4])]⟩
    ⟨("y.txt".toList), ("7-y.txt".toList), [4]⟩ []).2.1 (by decide)
  exact ⟨h1.1, h1.2, h2.1⟩

/-! ## Mail Composer: attachment-list assembly (shared by both variants) -/

/-- One composed attachment: filename plus its byte content.  The source
stores `{filename, path}` pairs and reads the content from `path` later in
the same request; since the filesystem does not change in between, the
path dereference is fused into the composition here. -/
abbrev Attachment := JsStr × List Nat

/-- Attachment-list assembly (server.js 77-99, part_001 163-189): push every
uploaded file under its original name in request order, then push every
selected name that is truthy and exists in the files folder (missing names
are skipped without error). -/
def composeAttachments (files : List StagedFile) (selectedFiles : List JsStr)
    (store : List FileEntry) : List Attachment :=
  let withUploads := files.foldl
    (fun acc f => acc ++ [(f.originalname, f.content)]) []
  selectedFiles.foldl
    (fun acc fileName =>
      if !fileName.isEmpty && (storeLookup store fileName).isSome then
        acc ++ [(fileName, (storeLookup store fileName).getD [])]
      else acc)
    withUploads

theorem foldl_push_map {α β : Type} (g : α → β) :
    ∀ (l : List α) (init : List β),
      l.foldl (fun acc x => acc ++ [g x]) init = init ++ l.map g := by
  intro l
  induction l with
  | nil => intro init; simp
  | cons x xs ih =>
    intro init
    rw [List.foldl_cons, ih, List.map_cons]
    simp

theorem foldl_push_filter {β : Type} (p : JsStr → Bool) (g : JsStr → β) :
    ∀ (l : List JsStr) (init : List β),
      l.foldl (fun acc n => if p n then acc ++ [g n] else acc) init
        = init ++ (l.filter p).map g := by
  intro l
  induction l with
  | nil => intro init; simp
  | cons x xs ih =>
    intro init
    rw [List.foldl_cons, List.filter_cons]
    by_cases hp : p x = true
    · rw [if_pos hp, ih, if_pos hp]
      simp
    · rw [if_neg hp, ih, if_neg hp]

/-- C1: the composed attachment list is exactly the uploaded files under
their original names in request order, followed by the selected names that
resolve to an existing store entry, in selection order; non-resolving names
are skipped silently.  In particular, uploads `[A, B]` with selected
`[C, D]` where `C` is stored and `D` is not compose to exactly
`[A, B, C]`. -/
theorem C1_attachment_order (files : List StagedFile)
    (selectedFiles : List JsStr) (store : List FileEntry) :
    (composeAttachments files selectedFiles store).map (fun a => a.1)
      = files.map (fun f => f.originalname)
        ++ selectedFiles.filter
            (fun n => !n.isEmpty && (storeLookup store n).isSome)
    ∧ (composeAttachments
        [⟨("A".toList), ("1-A".toList), [10]⟩,
         ⟨("B".toList), ("2-B".toList), [11]⟩]
        [("C".toList), ("D".toList)]
        [(("C".toList), [12])]).map (fun a => a.1)
      = [("A".toList), ("B".toList), ("C".toList)] := by
  constructor
  · unfold composeAttachments
    rw [foldl_push_map, foldl_push_filter
      (fun n => !n.isEmpty && (storeLookup store n).isSome)
      (fun n => (n, (storeLookup store n).getD []))]
    simp [Function.comp_def]
  · decide

/-! ## Mail Composer: body rendering and the raw Gmail MIME envelope -/

/-- JavaScript `message.replace(/\n/g, '<br>')`. -/
def replaceNewlines (s : JsStr) : JsStr :=
  s.flatMap (fun c => if c = '\n' then ("<br>".toList) else [c])

/-- Fuelled decimal rendering worker; fuel dominating the value suffices. -/
def natDecAux : Nat → Nat → JsStr
  | 0, _ => []
  | _+1, 0 => []
  | fuel+1, n+1 =>
    natDecAux fuel ((n + 1) / 10) ++ [Nat.digitChar ((n + 1) % 10)]

/-- JavaScript number-to-string coercion for a non-negative integer
(`String(Date.now())` inside a template literal): standard decimal. -/
def natDec (n : Nat) : JsStr := if n = 0 then ['0'] else natDecAux n n

/-- Decimal read-back, inverse of `natDec`. -/
def decVal (s : JsStr) : Nat := s.foldl (fun a c => a * 10 + (c.toNat - 48)) 0

theorem decVal_append_digit (l : JsStr) (c : Char) :
    decVal (l ++ [c]) = decVal l * 10 + (c.toNat - 48) := by
  simp [decVal, List.foldl_append]

theorem digitChar_toNat : ∀ d, d < 10 → (Nat.digitChar d).toNat - 48 = d := by
  decide

theorem decVal_natDecAux :
    ∀ (fuel n : Nat), 0 < n → n ≤ fuel → decVal (natDecAux fuel n) = n := by
  intro fuel
  induction fuel with
  | zero => intro n h1 h2; omega
  | succ fuel ih =>
    intro n h1 h2
    cases n with
    | zero => omega
    | succ m =>
      rw [natDecAux, decVal_append_digit,
        digitChar_toNat _ (Nat.mod_lt _ (by norm_num))]
      by_cases h10 : (m + 1) / 10 = 0
      · rw [h10]
        have hlt : m + 1 < 10 := by omega
        have hz : natDecAux fuel 0 = [] := by cases fuel <;> rfl
        rw [hz]
        show 0 * 10 + (m + 1) % 10 = m + 1
        rw [Nat.mod_eq_of_lt hlt]
        omega
      · have hq : 0 < (m + 1) / 10 := Nat.pos_of_ne_zero h10
        have hle : (m + 1) / 10 ≤ fuel := by
          have := Nat.div_lt_self (Nat.succ_pos m) (by norm_num : 1 < 10)
          omega
        rw [ih _ hq hle]
        have := Nat.div_add_mod (m + 1) 10
        omega

theorem decVal_natDec (n : Nat) : decVal (natDec n) = n := by
  unfold natDec
  by_cases h : n = 0
  · rw [if_pos h, h]; decide
  · rw [if_neg h]
    exact decVal_natDecAux n n (Nat.pos_of_ne_zero h) le_rfl

theorem natDec_inj {m n : Nat} (h : natDec m = natDec n) : m = n := by
  have := congrArg decVal h
  rwa [decVal_natDec, decVal_natDec] at this

/-- UTF-8 encoding of one code point (`Buffer.from(string)` uses UTF-8). -/
def utf8EncodeChar (c : Char) : List Nat :=
  let n := c.toNat
  if n < 128 then [n]
  else if n < 2048 then [192 + n / 64, 128 + n % 64]
  else if n < 65536 then
    [224 + n / 4096, 128 + (n / 64) % 64, 128 + n % 64]
  else
    [240 + n / 262144, 128 + (n / 4096) % 64, 128 + (n / 64) % 64,
      128 + n % 64]

def utf8Bytes (s : JsStr) : List Nat := s.flatMap utf8EncodeChar

def base64Alphabet : JsStr :=
  "ABCDEFGHIJKLMNOPQRSTUVWXYZabcdefghijklmnopqrstuvwxyz0123456789+/".toList

def b64Char (k : Nat) : Char := base64Alphabet.getD k 'A'

/-- `Buffer.prototype.toString('base64')`: standard base64 with `=`
padding. -/
def base64Encode : List Nat → JsStr
  | b1 :: b2 :: b3 :: rest =>
    let n := (b1 % 256) * 65536 + (b2 % 256) * 256 + (b3 % 256)
    b64Char (n / 262144) :: b64Char ((n / 4096) % 64)
      :: b64Char ((n / 64) % 64) :: b64Char (n % 64) :: base64Encode rest
  | [b1, b2] =>
    let n := (b1 % 256) * 65536 + (b2 % 256) * 256
    [b64Char (n / 262144), b64Char ((n / 4096) % 64),
      b64Char ((n / 64) % 64), '=']
  | [b1] =>
    let n := (b1 % 256) * 65536
    [b64Char (n / 262144), b64Char ((n / 4096) % 64), '=', '=']
  | [] => []

/-- JavaScript `.replace(/=+$/, '')`: the leftmost match of `=+$` is the
maximal trailing run of `=`, so replacing it with the empty string drops
exactly that run. -/
def stripTrailingEq (s : JsStr) : JsStr :=
  (s.reverse.dropWhile (fun c => c == '=')).reverse

/-- The chain applied to the raw envelope (part_001 222-226):
base64, then `+`→`-`, then `/`→`_`, then strip trailing `=`. -/
def base64UrlOf (bytes : List Nat) : JsStr :=
  stripTrailingEq
    (((base64Encode bytes).map (fun c => if c = '+' then '-' else c)).map
      (fun c => if c = '/' then '_' else c))

/-- `path.extname` for a plain file name (no directory separators): the
suffix from the final `.`, or empty when there is no `.` or the only `.`
leads the name. -/
def extname (s : JsStr) : JsStr :=
  let r := s.reverse.takeWhile (fun c => !(c == '.'))
  if r.length + 1 ≥ s.length then [] else '.' :: r.reverse

/-- The fixed extension → media-type table (part_001 268-280). -/
def mimeTypes : List (JsStr × JsStr) :=
  [((".pdf".toList), ("application/pdf".toList)),
   ((".doc".toList), ("application/msword".toList)),
   ((".docx".toList),
    ("application/vnd.openxmlformats-officedocument.wordprocessingml.document".toList)),
   ((".xls".toList), ("application/vnd.ms-excel".toList)),
   ((".xlsx".toList),
    ("application/vnd.openxmlformats-officedocument.spreadsheetml.sheet".toList)),
   ((".png".toList), ("image/png".toList)),
   ((".jpg".toList), ("image/jpeg".toList)),
   ((".jpeg".toList), ("image/jpeg".toList)),
   ((".gif".toList), ("image/gif".toList)),
   ((".txt".toList), ("text/plain".toList)),
   ((".zip".toList), ("application/zip".toList))]

/-- `getMimeType` (part_001 266-282): table lookup on the lower-cased
extension, defaulting to `application/octet-stream`. -/
def getMimeType (filename : JsStr) : JsStr :=
  let ext := (extname filename).map Char.toLower
  (((mimeTypes.find? (fun e => e.1 == ext)).map (fun e => e.2)).getD
    ("application/octet-stream".toList))

/-- `'boundary_' + Date.now()`. -/
def boundaryOf (now : Nat) : JsStr := ("boundary_".toList) ++ natDec now

/-- The six lines the attachment for-loop (part_001 200-212) pushes for
one attachment: boundary separator, media-type header from `getMimeType`,
base64 transfer-encoding header, disposition header, blank line, and the
base64-encoded file content. -/
def attBlockLines (boundary : JsStr) (a : Attachment) : List JsStr :=
  [("--".toList) ++ boundary,
   ("Content-Type: ".toList) ++ getMimeType a.1 ++ ("; name=\"".toList)
     ++ a.1 ++ ("\"".toList),
   ("Content-Transfer-Encoding: base64".toList),
   ("Content-Disposition: attachment; filename=\"".toList) ++ a.1
     ++ ("\"".toList),
   [],
   base64Encode a.2]

/-- The `emailContent` array of lines built by the Gmail handler
(part_001 152-220). -/
def buildEmailLines (userName userEmail mailTo subject message : JsStr)
    (attachments : List Attachment) (now : Nat) : List JsStr :=
  let boundary := boundaryOf now
  let headers : List JsStr :=
    [("From: ".toList) ++ userName ++ (" <".toList) ++ userEmail
       ++ (">".toList),
     ("To: ".toList) ++ mailTo,
     ("Subject: ".toList) ++ subject,
     ("MIME-Version: 1.0".toList)]
  if !attachments.isEmpty then
    headers
      ++ [("Content-Type: multipart/mixed; boundary=\"".toList) ++ boundary
            ++ ("\"".toList),
          [],
          ("--".toList) ++ boundary,
          ("Content-Type: text/html; charset=UTF-8".toList),
          [],
          ("<p>".toList) ++ replaceNewlines message ++ ("</p>".toList)]
      ++ attachments.flatMap (attBlockLines boundary)
      ++ [("--".toList) ++ boundary ++ ("--".toList)]
  else
    headers
      ++ [("Content-Type: text/html; charset=UTF-8".toList),
          [],
          ("<p>".toList) ++ replaceNewlines message ++ ("</p>".toList)]

/-- `emailContent.join('\r\n')`. -/
def joinCRLF (lines : List JsStr) : JsStr :=
  List.intercalate ("\r\n".toList) lines

/-- The `raw` payload handed to `gmail.users.messages.send`. -/
def rawEmailOf (userName userEmail mailTo subject message : JsStr)
    (attachments : List Attachment) (now : Nat) : JsStr :=
  base64UrlOf (utf8Bytes (joinCRLF
    (buildEmailLines userName userEmail mailTo subject message attachments now)))

/-! ## The two POST /send-email handlers -/

/-- JavaScript falsiness of an optional string request field (`!x` is true
for a missing field and for the empty string). -/
def falsy : Option JsStr → Bool
  | none => true
  | some s => s.isEmpty

/-- The `mailOptions` object handed to `transporter.sendMail` (server.js
68-104). -/
structure MailOptions where
  fromAddr : JsStr
  toAddr : JsStr
  subject : JsStr
  text : JsStr
  html : JsStr
  attachments : Option (List Attachment)

/-- Result of the nodemailer handler: HTTP status, the structured
`{success, message}` body, the options passed to `sendMail` (`none` when no
transport call was made) and the final filesystem state. -/
structure NMResult where
  status : Nat
  success : Bool
  message : JsStr
  mail : Option MailOptions
  fs : FS

/-- POST /send-email, nodemailer variant (server.js 52-135).  `transportOk`
models whether `transporter.sendMail` resolves; `errMsg` is the provider
error message when it rejects. -/
def handleSendEmailNM (fs : FS) (mfrom mto msubject mmessage msender :
    Option JsStr) (files : List StagedFile) (selectedFiles : List JsStr)
    (transportOk : Bool) (errMsg : JsStr) : NMResult :=
  if falsy mfrom || falsy mto || falsy msubject || falsy mmessage then
    ⟨400, false, ("All fields are required".toList), none, fs⟩
  else
    let from0 := mfrom.getD []
    let message0 := mmessage.getD []
    let fromAddress :=
      if falsy msender then from0
      else msender.getD [] ++ (" <".toList) ++ from0 ++ (">".toList)
    let atts := composeAttachments files selectedFiles fs.store
    let mailOptions : MailOptions :=
      ⟨fromAddress, mto.getD [], msubject.getD [], message0,
        ("<p>".toList) ++ replaceNewlines message0 ++ ("</p>".toList),
        if atts.isEmpty then none else some atts⟩
    if transportOk then
      ⟨200, true, ("Email sent successfully!".toList), some mailOptions,
        promoteAll fs files⟩
    else
      ⟨500, false, ("Failed to send email: ".toList) ++ errMsg,
        some mailOptions, fs⟩

/-- Result of the Gmail-API handler: HTTP status, structured body, the
base64url `raw` payload handed to `gmail.users.messages.send` (`none` when
no transport call was made) and the final filesystem state. -/
structure GmailResult where
  status : Nat
  success : Bool
  message : JsStr
  sentRaw : Option JsStr
  fs : FS

/-- POST /send-email, Gmail raw-message variant (part_001 129-263), after
authentication; `userName`/`userEmail` come from the session. -/
def handleSendEmailGmail (fs : FS) (userName userEmail : JsStr)
    (mto msubject mmessage : Option JsStr) (files : List StagedFile)
    (selectedFiles : List JsStr) (now : Nat) (transportOk : Bool)
    (errMsg : JsStr) : GmailResult :=
  if falsy mto || falsy msubject || falsy mmessage then
    ⟨400, false, ("To, Subject and Message are required".toList), none, fs⟩
  else
    let atts := composeAttachments files selectedFiles fs.store
    let raw := rawEmailOf userName userEmail (mto.getD []) (msubject.getD [])
      (mmessage.getD []) atts now
    if transportOk then
      ⟨200, true, ("Email sent successfully!".toList), some raw,
        promoteAll fs files⟩
    else
      ⟨500, false, ("Failed to send email: ".toList) ++ errMsg, some raw, fs⟩

/-- C5: whenever recipient, subject or body is missing or empty, both
send-email handlers answer HTTP 400 with a failure body, hand nothing to
the transport, and leave the filesystem (store and staging area) exactly as
it was — no promotion happens. -/
theorem C5_validation (fs : FS) (mfrom mto msubject mmessage msender :
    Option JsStr) (userName userEmail : JsStr) (files : List StagedFile)
    (selectedFiles : List JsStr) (now : Nat) (transportOk : Bool)
    (errMsg : JsStr)
    (h : falsy mto = true ∨ falsy msubject = true ∨ falsy mmessage = true) :
    handleSendEmailNM fs mfrom mto msubject mmessage msender files
        selectedFiles transportOk errMsg
      = ⟨400, false, ("All fields are required".toList), none, fs⟩
    ∧ handleSendEmailGmail fs userName userEmail mto msubject mmessage files
        selectedFiles now transportOk errMsg
      = ⟨400, false, ("To, Subject and Message are required".toList), none,
          fs⟩ := by
  constructor
  · unfold handleSendEmailNM
    rw [if_pos (by rcases h with h | h | h <;> simp [h])]
  · unfold handleSendEmailGmail
    rw [if_pos (by rcases h with h | h | h <;> simp [h])]

theorem C5_witness :
    handleSendEmailNM ⟨[], []⟩ (some ("a@b".toList)) (some ("c@d".toList))
        (some ("Hi".toList)) (some []) none [] [] true []
      = ⟨400, false, ("All fields are required".toList), none, ⟨[], []⟩⟩
    ∧ handleSendEmailGmail ⟨[], []⟩ ("U".toList) ("u@g".toList)
        (some ("c@d".toList)) (some ("Hi".toList)) (some []) [] [] 5 true []
      = ⟨400, false, ("To, Subject and Message are required".toList), none,
          ⟨[], []⟩⟩ := by
  have h := C5_validation ⟨[], []⟩ (some ("a@b".toList)) (some ("c@d".toList))
    (some ("Hi".toList)) (some []) none ("U".toList) ("u@g".toList) [] [] 5
    true [] (by decide)
  exact h

/-- C10: the nodemailer variant additionally requires a truthy `from`
field: when recipient, subject and body are all present and non-empty but
`from` is missing or empty, the handler still answers HTTP 400
`All fields are required`, makes no transport call and promotes nothing. -/
theorem C10_from_required (fs : FS) (mfrom mto msubject mmessage msender :
    Option JsStr) (files : List StagedFile) (selectedFiles : List JsStr)
    (transportOk : Bool) (errMsg : JsStr) (hfrom : falsy mfrom = true) :
    handleSendEmailNM fs mfrom mto msubject mmessage msender files
        selectedFiles transportOk errMsg
      = ⟨400, false, ("All fields are required".toList), none, fs⟩ := by
  unfold handleSendEmailNM
  rw [if_pos (by simp [hfrom])]

theorem C10_witness :
    handleSendEmailNM ⟨[], []⟩ (some []) (some ("c@d".toList))
        (some ("Hi".toList)) (some ("Hello".toList)) none [] [] true []
      = ⟨400, false, ("All fields are required".toList), none, ⟨[], []⟩⟩ :=
  C10_from_required ⟨[], []⟩ (some []) (some ("c@d".toList))
    (some ("Hi".toList)) (some ("Hello".toList)) none [] [] true []
    (by decide)

/-- `replace(/\n/g, '<br>')` is exactly: split the body at newline
characters and re-join the pieces with `<br>` — i.e. every newline is
replaced by `<br>` and nothing else changes. -/
theorem replaceNewlines_eq_intercalate (s : JsStr) :
    replaceNewlines s
      = List.intercalate ("<br>".toList) (splitJS ['\n'] s) := by
  induction s with
  | nil =>
    rw [splitJS_nil, intercalate_single]
    rfl
  | cons c cs ih =>
    by_cases hc : c = '\n'
    · subst hc
      have hstep : replaceNewlines ('\n' :: cs)
          = ("<br>".toList) ++ replaceNewlines cs := by
        simp [replaceNewlines]
      rw [hstep, splitJS_single_cons_pos]
      cases hsp : splitJS ['\n'] cs with
      | nil => exact absurd hsp (splitJS_ne_nil _ _)
      | cons a L =>
        rw [intercalate_cons₂, ih, hsp]
        simp
    · have hstep : replaceNewlines (c :: cs) = c :: replaceNewlines cs := by
        simp [replaceNewlines, hc]
      rw [hstep, splitJS_single_cons_neg '\n' c cs hc]
      cases hsp : splitJS ['\n'] cs with
      | nil => exact absurd hsp (splitJS_ne_nil _ _)
      | cons a L =>
        rw [List.modifyHead_cons, ih, hsp]
        cases L with
        | nil => rw [intercalate_single, intercalate_single]
        | cons b L2 => rw [intercalate_cons₂, intercalate_cons₂]; simp

/-- C7 counterexample: for the body `line1\nline2` the nodemailer handler's
rendered HTML is `<p>line1<br>line2</p>`, which is not equal to the bare
newline-replaced body `line1<br>line2` — the code additionally wraps the
body in a paragraph element. -/
theorem C7_counterexample :
    (handleSendEmailNM ⟨[], []⟩ (some ("a@b".toList)) (some ("c@d".toList))
        (some ("Hi".toList)) (some ("line1\nline2".toList)) none [] [] true
        []).mail.map (fun m => m.html)
      = some ("<p>line1<br>line2</p>".toList)
    ∧ (handleSendEmailNM ⟨[], []⟩ (some ("a@b".toList)) (some ("c@d".toList))
        (some ("Hi".toList)) (some ("line1\nline2".toList)) none [] [] true
        []).mail.map (fun m => m.html)
      ≠ some (replaceNewlines ("line1\nline2".toList)) := by
  refine ⟨by decide, by decide⟩

/-- C7 (amended): for every valid send request the rendered plain-text body
equals the raw body unchanged, and the rendered HTML body equals the raw
body with every newline replaced by `<br>` (split at newlines, re-joined
with `<br>`; no escaping or other per-character change) wrapped in a single
`<p>...</p>` element; for the body `line1\nline2` the HTML contains
`line1<br>line2`. -/
theorem C7_rendered_body (fs : FS) (mfrom mto msubject msender : Option JsStr)
    (message : JsStr) (files : List StagedFile) (selectedFiles : List JsStr)
    (transportOk : Bool) (errMsg : JsStr) (hfrom : falsy mfrom = false)
    (hto : falsy mto = false) (hsub : falsy msubject = false)
    (hmsg : message ≠ []) :
    (handleSendEmailNM fs mfrom mto msubject (some message) msender files
        selectedFiles transportOk errMsg).mail.map (fun m => m.text)
      = some message
    ∧ (handleSendEmailNM fs mfrom mto msubject (some message) msender files
        selectedFiles transportOk errMsg).mail.map (fun m => m.html)
      = some (("<p>".toList)
          ++ List.intercalate ("<br>".toList) (splitJS ['\n'] message)
          ++ ("</p>".toList))
    ∧ ("line1<br>line2".toList)
        <:+: (("<p>".toList)
          ++ List.intercalate ("<br>".toList)
            (splitJS ['\n'] ("line1\nline2".toList))
          ++ ("</p>".toList)) := by
  have h4 : falsy (some message) = false := by
    simp [falsy, List.isEmpty_iff, hmsg]
  have hcond : (falsy mfrom || falsy mto || falsy msubject
      || falsy (some message)) = false := by
    simp [hfrom, hto, hsub, h4]
  refine ⟨?_, ?_, by decide⟩
  · unfold handleSendEmailNM
    rw [if_neg (by simp [hcond])]
    cases transportOk <;> rfl
  · unfold handleSendEmailNM
    rw [if_neg (by simp [hcond])]
    rw [← replaceNewlines_eq_intercalate]
    cases transportOk <;> rfl

theorem C7_witness :
    (handleSendEmailNM ⟨[], []⟩ (some ("a@b".toList)) (some ("c@d".toList))
        (some ("Hi".toList)) (some ("line1\nline2".toList)) none [] [] true
        []).mail.map (fun m => m.text) = some ("line1\nline2".toList)
    ∧ (handleSendEmailNM ⟨[], []⟩ (some ("a@b".toList)) (some ("c@d".toList))
        (some ("Hi".toList)) (some ("line1\nline2".toList)) none [] [] true
        []).mail.map (fun m => m.html)
      = some ("<p>line1<br>line2</p>".toList) := by
  have h := C7_rendered_body ⟨[], []⟩ (some ("a@b".toList))
    (some ("c@d".toList)) (some ("Hi".toList)) none ("line1\nline2".toList)
    [] [] true [] (by decide) (by decide) (by decide) (by decide)
  refine ⟨h.1, ?_⟩
  rw [h.2.1]
  decide

/-! ## POST /files/delete (error propagation) -/

/-- A structured HTTP response body as produced by `res.json`:
status plus the `{success, message}` object. -/
structure Resp where
  status : Nat
  success : Bool
  message : JsStr

/-- POST /files/delete (server.js 152-167, part_001 298-313).  The
`path.join(filesFolder, fileName)` call sits outside the `try` block, so a
request body with no `fileName` string throws a `TypeError` that escapes
the handler's own error handling — modelled as `Except.error`.  Everything
else runs inside the `try` and produces a structured response. -/
def filesDelete (fs : FS) (fileName : Option JsStr) :
    Except JsStr (Resp × FS) :=
  match fileName with
  | none =>
    Except.error
      ("TypeError: The \"path\" argument must be of type string".toList)
  | some n =>
    if (storeLookup fs.store n).isSome then
      Except.ok (⟨200, true, ("File deleted successfully".toList)⟩,
        ⟨removeFile fs.store n, fs.uploads⟩)
    else
      Except.ok (⟨404, false, ("File not found".toList)⟩, fs)

/-- C9 counterexample: a `files/delete` request without a `fileName` field
makes `path.join` throw outside the handler's `try`, so the failure is not
converted to a structured `{success, message}` response. -/
theorem C9_counterexample :
    filesDelete ⟨[], []⟩ none
      = Except.error
          ("TypeError: The \"path\" argument must be of type string".toList)
    ∧ (filesDelete ⟨[], []⟩ none).isOk = false := by
  refine ⟨rfl, rfl⟩

/-- C9 (amended): whenever the request body carries a string `fileName`,
the files/delete handler converts every outcome into a structured
`{success, message}` response — success exactly when the file existed, and
the named file is absent from the store afterwards.  A request without a
`fileName` field instead raises a `TypeError` outside the handler's `try`,
which is not converted to the structured form (Express's default error
handler answers; the process still does not crash). -/
theorem C9_structured_when_present (fs : FS) (n : JsStr) :
    ∃ resp fs2, filesDelete fs (some n) = Except.ok (resp, fs2)
      ∧ resp.success = (storeLookup fs.store n).isSome
      ∧ storeLookup fs2.store n = none := by
  by_cases h : (storeLookup fs.store n).isSome = true
  · refine ⟨⟨200, true, ("File deleted successfully".toList)⟩,
      ⟨removeFile fs.store n, fs.uploads⟩, ?_, ?_, ?_⟩
    · show (if (storeLookup fs.store n).isSome then _ else _) = _
      rw [if_pos h]
    · rw [h]
    · exact storeLookup_removeFile fs.store n
  · have hfalse : (storeLookup fs.store n).isSome = false := by
      simpa using h
    refine ⟨⟨404, false, ("File not found".toList)⟩, fs, ?_, ?_, ?_⟩
    · show (if (storeLookup fs.store n).isSome then _ else _) = _
      rw [if_neg h]
    · rw [hfalse]
    · exact Option.not_isSome_iff_eq_none.mp (by simpa using h)

/-! ## Facts about the raw envelope needed for the C6 claim -/

theorem cons_ne_cons {a b : Char} {p q : JsStr} (h : a ≠ b) :
    a :: p ≠ b :: q := by simp [h]

theorem ne_cons_of_not_mem {l : JsStr} {c : Char} {t : JsStr} (h : c ∉ l) :
    l ≠ c :: t := by
  intro he
  exact h (he ▸ List.mem_cons_self c t)

theorem b64Char_ne_dash (k : Nat) : b64Char k ≠ '-' := by
  by_cases h : k < 64
  · have hall : ∀ j, j < 64 → b64Char j ≠ '-' := by decide
    exact hall k h
  · unfold b64Char
    rw [List.getD_eq_getElem?_getD,
      List.getElem?_eq_none (by
        have hlen : base64Alphabet.length = 64 := by decide
        omega)]
    decide

theorem dash_not_mem_base64EncodeAux :
    ∀ (n : Nat) (bs : List Nat), bs.length ≤ n → '-' ∉ base64Encode bs := by
  intro n
  induction n with
  | zero =>
    intro bs h
    have : bs = [] := List.length_eq_zero.mp (Nat.le_zero.mp h)
    subst this
    simp [base64Encode]
  | succ n ih =>
    intro bs h
    rcases bs with _ | ⟨b1, _ | ⟨b2, _ | ⟨b3, rest⟩⟩⟩
    · simp [base64Encode]
    · intro hmem
      simp only [base64Encode, List.mem_cons, List.not_mem_nil,
        or_false] at hmem
      rcases hmem with h1 | h1 | h1 | h1
      · exact b64Char_ne_dash _ h1.symm
      · exact b64Char_ne_dash _ h1.symm
      · exact absurd h1 (by decide)
      · exact absurd h1 (by decide)
    · intro hmem
      simp only [base64Encode, List.mem_cons, List.not_mem_nil,
        or_false] at hmem
      rcases hmem with h1 | h1 | h1 | h1
      · exact b64Char_ne_dash _ h1.symm
      · exact b64Char_ne_dash _ h1.symm
      · exact b64Char_ne_dash _ h1.symm
      · exact absurd h1 (by decide)
    · intro hmem
      simp only [base64Encode, List.mem_cons] at hmem
      rcases hmem with h1 | h1 | h1 | h1 | h1
      · exact b64Char_ne_dash _ h1.symm
      · exact b64Char_ne_dash _ h1.symm
      · exact b64Char_ne_dash _ h1.symm
      · exact b64Char_ne_dash _ h1.symm
      · exact ih rest (by simp at h; omega) h1

theorem dash_not_mem_base64Encode (bs : List Nat) :
    '-' ∉ base64Encode bs :=
  dash_not_mem_base64EncodeAux bs.length bs le_rfl

theorem count_sep_attBlock (boundary : JsStr) (a : Attachment) :
    List.count (("--".toList) ++ boundary) (attBlockLines boundary a)
      = 1 := by
  have h2 : ("Content-Type: ".toList) ++ getMimeType a.1
      ++ ("; name=\"".toList) ++ a.1 ++ ("\"".toList)
      ≠ ("--".toList) ++ boundary := cons_ne_cons (by decide)
  have h3 : ("Content-Transfer-Encoding: base64".toList)
      ≠ ("--".toList) ++ boundary := cons_ne_cons (by decide)
  have h4 : ("Content-Disposition: attachment; filename=\"".toList) ++ a.1
      ++ ("\"".toList) ≠ ("--".toList) ++ boundary :=
    cons_ne_cons (by decide)
  have h5 : ([] : JsStr) ≠ ("--".toList) ++ boundary := by simp
  have h6 : base64Encode a.2 ≠ ("--".toList) ++ boundary :=
    ne_cons_of_not_mem (dash_not_mem_base64Encode a.2)
  have h6b : base64Encode a.2 ≠ '-' :: ('-' :: boundary) :=
    ne_cons_of_not_mem (dash_not_mem_base64Encode a.2)
  unfold attBlockLines
  simp [List.count_cons, h2, h3, h4, h5, h6, h6b]

theorem count_sep_flatMap (boundary : JsStr) :
    ∀ (atts : List Attachment),
      List.count (("--".toList) ++ boundary)
          (atts.flatMap (attBlockLines boundary))
        = atts.length := by
  intro atts
  induction atts with
  | nil => simp
  | cons a rest ih =>
    rw [List.flatMap_cons, List.count_append, count_sep_attBlock boundary a,
      ih]
    simp [Nat.add_comm]

/-- Following the spec's words for the final encoding: standard base64 with
`+` replaced by `-`, `/` replaced by `_`, and trailing `=` stripped. -/
def specBase64Url (bytes : List Nat) : JsStr :=
  stripTrailingEq ((base64Encode bytes).map (fun c =>
    if c = '+' then '-' else if c = '/' then '_' else c))

theorem base64UrlOf_eq_spec (bytes : List Nat) :
    base64UrlOf bytes = specBase64Url bytes := by
  unfold base64UrlOf specBase64Url
  congr 1
  rw [List.map_map]
  apply List.map_congr_left
  intro c _
  by_cases h1 : c = '+'
  · subst h1; decide
  · by_cases h2 : c = '/'
    · subst h2; decide
    · simp [Function.comp_def, h1, h2]

theorem count_sep_buildEmailLines (userName userEmail mailTo subject
    message : JsStr) (attachments : List Attachment) (now : Nat)
    (hatt : attachments ≠ []) :
    List.count (("--".toList) ++ boundaryOf now)
        (buildEmailLines userName userEmail mailTo subject message
          attachments now)
      = 1 + attachments.length := by
  have hne : (!attachments.isEmpty) = true := by
    simp [List.isEmpty_iff, hatt]
  unfold buildEmailLines
  rw [if_pos hne]
  simp only [List.count_append, List.count_cons, List.count_nil,
    List.count_singleton, count_sep_flatMap, beq_iff_eq]
  simp

theorem boundaryOf_inj {n1 n2 : Nat} (h : boundaryOf n1 = boundaryOf n2) :
    n1 = n2 :=
  natDec_inj (List.append_cancel_left h)

/-- C6: with at least one attachment, the Gmail handler's envelope starts
with the `From`/`To`/`Subject`/`MIME-Version` headers, contains exactly one
HTML part, carries for every attachment a media-type header line built
from the fixed extension table (default `application/octet-stream`) and a
base64-encoded content line, separates the parts by the time-based
boundary token (one separator for the HTML part plus one per attachment),
ends with the closing boundary marker, uses a boundary token that is
injective in the request timestamp, and transmits the whole envelope
base64url-encoded: standard base64 with `+`→`-`, `/`→`_` and trailing `=`
stripped. -/
theorem C6_raw_envelope (userName userEmail mailTo subject message : JsStr)
    (attachments : List Attachment) (now : Nat) (hatt : attachments ≠ []) :
    (buildEmailLines userName userEmail mailTo subject message attachments
        now).take 4
      = [("From: ".toList) ++ userName ++ (" <".toList) ++ userEmail
           ++ (">".toList),
         ("To: ".toList) ++ mailTo,
         ("Subject: ".toList) ++ subject,
         ("MIME-Version: 1.0".toList)]
    ∧ (("<p>".toList) ++ replaceNewlines message ++ ("</p>".toList))
        ∈ buildEmailLines userName userEmail mailTo subject message
            attachments now
    ∧ (∀ a ∈ attachments,
        (("Content-Type: ".toList) ++ getMimeType a.1 ++ ("; name=\"".toList)
            ++ a.1 ++ ("\"".toList))
          ∈ buildEmailLines userName userEmail mailTo subject message
              attachments now
        ∧ base64Encode a.2
          ∈ buildEmailLines userName userEmail mailTo subject message
              attachments now)
    ∧ List.count (("--".toList) ++ boundaryOf now)
        (buildEmailLines userName userEmail mailTo subject message
          attachments now)
      = 1 + attachments.length
    ∧ (buildEmailLines userName userEmail mailTo subject message attachments
        now).getLast?
      = some (("--".toList) ++ boundaryOf now ++ ("--".toList))
    ∧ (∀ n2, boundaryOf now = boundaryOf n2 → now = n2)
    ∧ rawEmailOf userName userEmail mailTo subject message attachments now
      = specBase64Url (utf8Bytes (joinCRLF (buildEmailLines userName
          userEmail mailTo subject message attachments now)))
    ∧ getMimeType ("report.PDF".toList) = ("application/pdf".toList)
    ∧ getMimeType ("archive.xyz".toList)
      = ("application/octet-stream".toList) := by
  have hne : (!attachments.isEmpty) = true := by
    simp [List.isEmpty_iff, hatt]
  refine ⟨?_, ?_, ?_, count_sep_buildEmailLines userName userEmail mailTo
    subject message attachments now hatt, ?_, fun n2 => boundaryOf_inj,
    base64UrlOf_eq_spec _, by decide, by decide⟩
  · unfold buildEmailLines
    rw [if_pos hne]
    rfl
  · unfold buildEmailLines
    rw [if_pos hne]
    simp
  · intro a ha
    constructor
    · have hmem : (("Content-Type: ".toList) ++ getMimeType a.1
          ++ ("; name=\"".toList) ++ a.1 ++ ("\"".toList))
          ∈ attachments.flatMap (attBlockLines (boundaryOf now)) :=
        List.mem_flatMap_of_mem ha (by simp [attBlockLines])
      unfold buildEmailLines
      rw [if_pos hne]
      simp only [List.mem_append]
      exact Or.inl (Or.inr hmem)
    · have hmem : base64Encode a.2
          ∈ attachments.flatMap (attBlockLines (boundaryOf now)) :=
        List.mem_flatMap_of_mem ha (by simp [attBlockLines])
      unfold buildEmailLines
      rw [if_pos hne]
      simp only [List.mem_append]
      exact Or.inl (Or.inr hmem)
  · unfold buildEmailLines
    rw [if_pos hne]
    simp
    rw [← List.cons_append, List.getLast?_concat]

theorem C6_witness :
    (buildEmailLines ("U".toList) ("u@g.co".toList) ("t@x.y".toList)
        ("S".toList) ("hi\nyo".toList) [(("a.txt".toList), [104, 105])]
        7).take 4
      = [("From: ".toList) ++ ("U".toList) ++ (" <".toList)
           ++ ("u@g.co".toList) ++ (">".toList),
         ("To: ".toList) ++ ("t@x.y".toList),
         ("Subject: ".toList) ++ ("S".toList),
         ("MIME-Version: 1.0".toList)]
    ∧ (("<p>".toList) ++ replaceNewlines ("hi\nyo".toList)
        ++ ("</p>".toList))
        ∈ buildEmailLines ("U".toList) ("u@g.co".toList) ("t@x.y".toList)
            ("S".toList) ("hi\nyo".toList) [(("a.txt".toList), [104, 105])] 7
    ∧ (∀ a ∈ [(("a.txt".toList), ([104, 105] : List Nat))],
        (("Content-Type: ".toList) ++ getMimeType a.1 ++ ("; name=\"".toList)
            ++ a.1 ++ ("\"".toList))
          ∈ buildEmailLines ("U".toList) ("u@g.co".toList) ("t@x.y".toList)
              ("S".toList) ("hi\nyo".toList)
              [(("a.txt".toList), [104, 105])] 7
        ∧ base64Encode a.2
          ∈ buildEmailLines ("U".toList) ("u@g.co".toList) ("t@x.y".toList)
              ("S".toList) ("hi\nyo".toList)
              [(("a.txt".toList), [104, 105])] 7)
    ∧ List.count (("--".toList) ++ boundaryOf 7)
        (buildEmailLines ("U".toList) ("u@g.co".toList) ("t@x.y".toList)
          ("S".toList) ("hi\nyo".toList) [(("a.txt".toList), [104, 105])] 7)
      = 1 + ([(("a.txt".toList), ([104, 105] : List Nat))]).length
    ∧ (buildEmailLines ("U".toList) ("u@g.co".toList) ("t@x.y".toList)
        ("S".toList) ("hi\nyo".toList) [(("a.txt".toList), [104, 105])]
        7).getLast?
      = some (("--".toList) ++ boundaryOf 7 ++ ("--".toList))
    ∧ (∀ n2, boundaryOf 7 = boundaryOf n2 → 7 = n2)
    ∧ rawEmailOf ("U".toList) ("u@g.co".toList) ("t@x.y".toList)
        ("S".toList) ("hi\nyo".toList) [(("a.txt".toList), [104, 105])] 7
      = specBase64Url (utf8Bytes (joinCRLF (buildEmailLines ("U".toList)
          ("u@g.co".toList) ("t@x.y".toList) ("S".toList)
          ("hi\nyo".toList) [(("a.txt".toList), [104, 105])] 7)))
    ∧ getMimeType ("report.PDF".toList) = ("application/pdf".toList)
    ∧ getMimeType ("archive.xyz".toList)
      = ("application/octet-stream".toList) :=
  C6_raw_envelope ("U".toList) ("u@g.co".toList) ("t@x.y".toList)
    ("S".toList) ("hi\nyo".toList) [(("a.txt".toList), [104, 105])] 7
    (by decide)
